import Mathlib

/-
  Shallow embedding of the conStats library (src/constats.c).

  Modelling conventions:
  * `int64_t` samples are modelled as `ℤ`; where a claim depends on the
    int64 value range, the range appears as an explicit hypothesis.
  * `uint64_t` quantities that can wrap (the formatter's `buf_index`) are
    modelled as `ℕ` with explicit arithmetic modulo `2^64`; `uint64_t`
    quantities that provably cannot wrap (loop counters, sizes, the
    outlier count) are modelled as plain `ℕ`.
  * C `float`/`double` accumulation is modelled by exact rational
    arithmetic (`ℚ`).  The C code's `sqrt` at the end of the standard
    deviation computations has no exact rational counterpart, so the
    `stdev` and `norm_stdev` fields carry the radicand (the quantity the
    C code takes the square root of); they are named `stdev_sq` and
    `norm_stdev_sq`.
  * A C conversion from a floating value to a signed integer truncates
    toward zero; it is modelled by `czTrunc`.
  * Fallible functions return `Option`/a status code, mirroring the C
    `-1`/`0` return convention.
-/

/-- 2^64, the modulus of `uint64_t` arithmetic. -/
def U64 : ℕ := 18446744073709551616

/-- The `INF` sentinel from constats.c (`9223372036854775807 = 2^63 - 1`). -/
def INF : ℤ := 9223372036854775807

/-- The `NINF` sentinel from constats.c (`-9223372036854775807`, one above INT64_MIN). -/
def NINF : ℤ := -9223372036854775807

/-- C conversion of a floating value to a signed integer: truncation toward zero. -/
def czTrunc (q : ℚ) : ℤ := if 0 ≤ q then ⌊q⌋ else ⌈q⌉

/-- `constats_get_mean`: floating mean of the whole sample set. -/
def constats_get_mean (sample_set : List ℤ) : ℚ :=
  ((sample_set.map (fun s : ℤ => (s : ℚ))).sum) / (sample_set.length : ℚ)

/-- `constats_get_tolerance`: mean absolute deviation of a sketch prefix
(`sample_size >>= 4` when `sample_size > 16`), times 5, truncated to
`int64_t` on return; clamped to `INF` when the sketch abdev exceeds the C
integer quotient `INF / 32`. -/
def constats_get_tolerance (sample_set : List ℤ) : ℤ :=
  let n : ℕ :=
    if sample_set.length > 16 then sample_set.length >>> 4 else sample_set.length
  let sum1 : ℚ := ((sample_set.take n).map (fun s : ℤ => (s : ℚ))).sum
  let mean : ℚ := sum1 / (n : ℚ)
  let sum2 : ℚ := ((sample_set.take n).map (fun s : ℤ => |(s : ℚ) - mean|)).sum
  let sketch_abdev : ℚ := sum2 / (n : ℚ)
  if sketch_abdev > ((INF / 32 : ℤ) : ℚ) then INF
  else czTrunc (5 * sketch_abdev)

/-- The `stats_t` structure from constats.h.  `stdev_sq`/`norm_stdev_sq`
carry the radicand of the C code's `sqrt` (see the header comment). -/
structure stats_t where
  N : ℕ
  mean : ℚ
  stdev_sq : ℚ
  abdev : ℚ
  min : ℤ
  max : ℤ
  tolerance : ℤ
  outliers : ℕ
  norm_mean : ℚ
  norm_stdev_sq : ℚ
  norm_abdev : ℚ
  norm_min : ℤ
  norm_max : ℤ
deriving Repr, DecidableEq

/-- `upper_thresh` from `constats_calculate_stats`:
`stat->tolerance == INF ? INF : stat->mean + stat->tolerance` (the sum is
converted from double to `int64_t`, i.e. truncated toward zero). -/
def upper_thresh (mean : ℚ) (tolerance : ℤ) : ℤ :=
  if tolerance = INF then INF else czTrunc (mean + (tolerance : ℚ))

/-- `lower_thresh` from `constats_calculate_stats`:
`stat->tolerance == INF ? NINF : stat->mean - stat->tolerance`. -/
def lower_thresh (mean : ℚ) (tolerance : ℤ) : ℤ :=
  if tolerance = INF then NINF else czTrunc (mean - (tolerance : ℚ))

/-- The first-pass loop's outlier test `sample > upper || sample < lower`. -/
def outlierB (U L : ℤ) (s : ℤ) : Bool := decide (s > U) || decide (s < L)

/-- Accumulator of the first pass over the samples in
`constats_calculate_stats` (the `stat` fields written in the loop plus the
`register float` sums). -/
structure Pass1State where
  min : ℤ
  max : ℤ
  norm_min : ℤ
  norm_max : ℤ
  outliers : ℕ
  stdevSum : ℚ
  abdevSum : ℚ
  normSum : ℚ
deriving Repr, DecidableEq

/-- One iteration of the first pass: absolute/squared deviation from the
mean, running min/max, the outlier test, and for non-outliers the
normalized sum and running normalized min/max. -/
def pass1_step (mean : ℚ) (U L : ℤ) (st : Pass1State) (s : ℤ) : Pass1State :=
  let dev : ℚ := |(s : ℚ) - mean|
  let isOut : Bool := outlierB U L s
  { min := if s < st.min then s else st.min
    max := if s > st.max then s else st.max
    norm_min := if !isOut && s < st.norm_min then s else st.norm_min
    norm_max := if !isOut && s > st.norm_max then s else st.norm_max
    outliers := if isOut then st.outliers + 1 else st.outliers
    stdevSum := st.stdevSum + dev * dev
    abdevSum := st.abdevSum + dev
    normSum := if isOut then st.normSum else st.normSum + (s : ℚ) }

/-- The first pass: fold of `pass1_step` starting from the temporary
values `min = INF`, `max = NINF`, `norm_min = INF`, `norm_max = NINF`,
`outliers = 0` and zero sums. -/
def pass1 (mean : ℚ) (U L : ℤ) (l : List ℤ) : Pass1State :=
  l.foldl (pass1_step mean U L) ⟨INF, NINF, INF, NINF, 0, 0, 0, 0⟩

/-- The second pass of `constats_calculate_stats`: for samples with
`sample <= upper_thresh && sample >= lower_thresh`, accumulate the
absolute and squared deviations from `norm_mean`.  Returns
`(normAbdevSum, normStdevSum)`. -/
def pass2 (norm_mean : ℚ) (U L : ℤ) (l : List ℤ) : ℚ × ℚ :=
  l.foldl
    (fun acc s =>
      if decide (s ≤ U) && decide (s ≥ L) then
        ((acc.1 + |(s : ℚ) - norm_mean|),
         (acc.2 + |(s : ℚ) - norm_mean| * |(s : ℚ) - norm_mean|))
      else acc)
    (0, 0)

/-- The computation performed by `constats_calculate_stats` after its
error check succeeded. -/
def calcStats (sample_set : List ℤ) : stats_t :=
  let N : ℕ := sample_set.length
  let mean : ℚ := constats_get_mean sample_set
  let tolerance : ℤ := constats_get_tolerance sample_set
  let U : ℤ := upper_thresh mean tolerance
  let L : ℤ := lower_thresh mean tolerance
  let p1 : Pass1State := pass1 mean U L sample_set
  let norm_mean : ℚ := p1.normSum / ((N - p1.outliers : ℕ) : ℚ)
  let p2 : ℚ × ℚ := pass2 norm_mean U L sample_set
  { N := N
    mean := mean
    stdev_sq := p1.stdevSum / (N : ℚ)
    abdev := p1.abdevSum / (N : ℚ)
    min := p1.min
    max := p1.max
    tolerance := tolerance
    outliers := p1.outliers
    norm_mean := norm_mean
    norm_stdev_sq := p2.2 / ((N - p1.outliers : ℕ) : ℚ)
    norm_abdev := p2.1 / ((N - p1.outliers : ℕ) : ℚ)
    norm_min := p1.norm_min
    norm_max := p1.norm_max }

/-- `constats_calculate_stats`.  The output pointer is modelled by a flag
saying whether it is `NULL`; the C function returns `-1` (here `none`)
exactly when the error check at its head fires, before any field of the
output structure is written. -/
def constats_calculate_stats (sample_set : List ℤ) (stat_is_null : Bool) :
    Option stats_t :=
  if stat_is_null = true || sample_set.length = 0 then none
  else some (calcStats sample_set)

/-- The outlier count of the first-pass loop as a function of a
(synthetic) tolerance, holding the mean fixed: the loop's classifier
applied with the thresholds `constats_calculate_stats` derives from that
tolerance. -/
def countOutliers (l : List ℤ) (mean : ℚ) (tol : ℤ) : ℕ :=
  l.countP (outlierB (upper_thresh mean tol) (lower_thresh mean tol))

/-- `constats_zrange_value`: the raw value at a given z-score,
`stat->norm_mean + zScore * stat->norm_stdev`.  The C function computes
this in double precision and returns it through a `uint64_t` that the
caller stores into an `int64_t`; for values representable in that range
the composite conversion truncates toward zero, which is what we model.
The renderer functions take the `stats_t` fields they read (`norm_mean`,
`norm_stdev`, `min`, `max`) as parameters; `norm_stdev` is the value the
C code stored (the floating square root), an arbitrary rational here. -/
def constats_zrange_value (norm_mean norm_stdev : ℚ) (zScore : ℚ) : ℤ :=
  czTrunc (norm_mean + zScore * norm_stdev)

/-- `constats_zscore_value`: `(value - norm_mean) / norm_stdev`, and `0`
when `norm_stdev == 0`. -/
def constats_zscore_value (norm_mean norm_stdev : ℚ) (value : ℤ) : ℚ :=
  if norm_stdev = 0 then 0 else ((value : ℚ) - norm_mean) / norm_stdev

/-- `constats_count_in_range`: number of samples with
`sample >= min && sample <= max` (inclusive bounds). -/
def constats_count_in_range (sample_set : List ℤ) (min max : ℤ) : ℕ :=
  sample_set.countP (fun s => decide (s ≥ min) && decide (s ≤ max))

/-- `constats_print_zrange_bar`, reduced to the numbers it prints that the
claims are about: the raw lower bound, the raw upper bound, and the count
of samples between them (the fixed-width bar string built from the count
is elided; no claim concerns it). -/
def constats_print_zrange_bar (sample_set : List ℤ) (norm_mean norm_stdev : ℚ)
    (zScoreMin zScoreMax : ℚ) : ℤ × ℤ × ℕ :=
  let value_below := constats_zrange_value norm_mean norm_stdev zScoreMin
  let value_above := constats_zrange_value norm_mean norm_stdev zScoreMax
  (value_below, value_above, constats_count_in_range sample_set value_below value_above)

/-- The `for ( ; i < maxZ; i += 0.5 )` loop of `constats_print_zhistogram`:
one bar per half-wide z range until `i` reaches `maxZ`. -/
def zhistLoop (sample_set : List ℤ) (norm_mean norm_stdev : ℚ) (maxZ i : ℚ) :
    List (ℤ × ℤ × ℕ) :=
  if h : i < maxZ then
    constats_print_zrange_bar sample_set norm_mean norm_stdev i (i + 1/2) ::
      zhistLoop sample_set norm_mean norm_stdev maxZ (i + 1/2)
  else []
termination_by (⌈2 * (maxZ - i)⌉).toNat
decreasing_by
  have hx : (0 : ℚ) < 2 * (maxZ - i) := by linarith
  have h1 : (1 : ℤ) ≤ ⌈2 * (maxZ - i)⌉ := by
    have := Int.ceil_pos.mpr hx
    omega
  have h2 : ⌈2 * (maxZ - (i + 1/2))⌉ = ⌈2 * (maxZ - i)⌉ - 1 := by
    rw [show 2 * (maxZ - (i + 1/2)) = 2 * (maxZ - i) - 1 by ring, Int.ceil_sub_one]
  omega

/-- `constats_print_zhistogram`, as the sequence of
`(value_below, value_above, count)` triples it prints: clamp the z-scores
of `stat->min` / `stat->max` to `[-3, 3]`, print the degenerate
`[-0.5, 0.5)` bar when the range is empty, then the half-wide bars. -/
def constats_print_zhistogram (sample_set : List ℤ) (norm_mean norm_stdev : ℚ)
    (min max : ℤ) : List (ℤ × ℤ × ℕ) :=
  let i := constats_zscore_value norm_mean norm_stdev min
  let i := if i < -3 then -3 else i
  let maxZ := constats_zscore_value norm_mean norm_stdev max
  let maxZ := if maxZ > 3 then 3 else maxZ
  (if i ≥ maxZ then
    [constats_print_zrange_bar sample_set norm_mean norm_stdev (-(1/2)) (1/2)]
   else []) ++ zhistLoop sample_set norm_mean norm_stdev maxZ i

/-- The `DTOC` macro: `(char)('0' + x)`. -/
def DTOC (d : ℕ) : Char := Char.ofNat (48 + d)

/-- `uint64_t` increment (`buf_index++`). -/
def inc64 (n : ℕ) : ℕ := (n + 1) % U64

/-- `uint64_t` subtraction (`buf_index -= chars_deleted`), which wraps
around modulo `2^64`. -/
def sub64 (a b : ℕ) : ℕ := (a + (U64 - b)) % U64

/-- The digit-extraction loop of `constats_truncate`:
`while ( value > 0 && digit_index < 20 )` pushing `DTOC(value % 10)`.
Produces the decimal digits least-significant first; `fuel` is
`20 - digit_index`. -/
def digitsLoop (value fuel : ℕ) : List Char :=
  match fuel, value with
  | 0, _ => []
  | _ + 1, 0 => []
  | f + 1, v + 1 => DTOC ((v + 1) % 10) :: digitsLoop ((v + 1) / 10) f

/-- Result of the reverse-fill loop of `constats_truncate`: the writes it
performed, the remaining `width`, the final `buf_index`, and the digits
not yet emitted (`digit_index` is their count). -/
structure FillResult where
  writes : List (ℕ × Char)
  width : ℕ
  bi : ℕ
  rem : List Char
deriving Repr, DecidableEq

/-- The reverse-fill loop `while ( width > 0 && digit_index >= 1 )` of
`constats_truncate`, operating on the digits most-significant first
(popping the head here is the C code's `digits[--digit_index]`). -/
def fillLoop (width bi : ℕ) (digitsBE : List Char) : FillResult :=
  match width, digitsBE with
  | 0, rest => ⟨[], 0, bi, rest⟩
  | w + 1, [] => ⟨[], w + 1, bi, []⟩
  | w + 1, c :: rest =>
    let r := fillLoop w (inc64 bi) rest
    ⟨(bi, c) :: r.writes, r.width, r.bi, r.rem⟩

/-- The space-padding loop `while ( width > 0 )` of `constats_truncate`. -/
def padLoop (width bi : ℕ) : List (ℕ × Char) :=
  match width with
  | 0 => []
  | w + 1 => (bi, ' ') :: padLoop w (inc64 bi)

/-- The suffix selection chain of `constats_truncate` on the adjusted
`digit_index`. -/
def suffixChar (digit_index : ℕ) : Char :=
  if digit_index ≥ 18 then 'E'
  else if digit_index ≥ 15 then 'P'
  else if digit_index ≥ 12 then 'T'
  else if digit_index ≥ 9 then 'G'
  else if digit_index ≥ 6 then 'M'
  else if digit_index ≥ 3 then 'K'
  else ' '

/-- The body of `constats_truncate` for a nonnegative value and nonzero
width: digit extraction, reverse fill, the suffix step with its wrapping
`uint64_t` index arithmetic and its `if ( buf_index < 0 )` guard, and the
space padding.  Returns the status code and the `(index, char)` writes
performed into `buf` in order. -/
def truncCore (value width : ℕ) : Int × List (ℕ × Char) :=
  let digits := digitsLoop value 20
  let f := fillLoop width 0 digits.reverse
  if f.rem.length ≥ 1 then
    let chars_deleted := 3 - f.rem.length % 3
    let buf_index := sub64 f.bi chars_deleted
    let width2 := f.width + chars_deleted
    let digit_index := f.rem.length + chars_deleted
    if buf_index < 0 then (-1, f.writes)
    else
      (0, f.writes ++ [(buf_index, suffixChar digit_index)]
            ++ padLoop (width2 - 1) (inc64 buf_index))
  else (0, f.writes ++ padLoop f.width f.bi)

/-- `constats_truncate`.  A negative value writes `'-'` at index 0 and
re-enters the function on `-value` with the buffer advanced by one and
the width decremented (the recursive call's width-zero check is inlined
here; the recursion cannot go deeper). -/
def constats_truncate (value : ℤ) (width : ℕ) : Int × List (ℕ × Char) :=
  if width = 0 then (-1, [])
  else if value < 0 then
    let inner :=
      if width - 1 = 0 then ((-1 : Int), ([] : List (ℕ × Char)))
      else truncCore (-value).toNat (width - 1)
    (inner.1, (0, '-') :: inner.2.map (fun p => (p.1 + 1, p.2)))
  else truncCore value.toNat width

/-- The content of the output buffer after a list of writes: later writes
overwrite earlier ones; unwritten cells keep an arbitrary placeholder. -/
def applyWrites (ws : List (ℕ × Char)) (f : ℕ → Char) : ℕ → Char :=
  ws.foldl (fun g p => Function.update g p.1 p.2) f

/-- The first `width` characters of the buffer after the writes. -/
def renderBuf (ws : List (ℕ × Char)) (width : ℕ) : List Char :=
  (List.range width).map (applyWrites ws fun _ => '?')

/-- Modelled from the spec's words, for comparison with
`constats_get_tolerance`: the mean absolute deviation of only the first
`N/16` samples (all of them when `N ≤ 16`) around their own local mean. -/
def specSketchAbdev (l : List ℤ) : ℚ :=
  let m : ℕ := if l.length ≤ 16 then l.length else l.length / 16
  let pre := l.take m
  let localMean : ℚ := ((pre.map (fun s : ℤ => (s : ℚ))).sum) / (pre.length : ℚ)
  ((pre.map (fun s : ℤ => |(s : ℚ) - localMean|)).sum) / (pre.length : ℚ)

/-- Big-endian decimal digit characters of a natural number (spec side:
the true decimal representation a truncated prefix is taken of). -/
def decimalBE (v : ℕ) : List Char := ((Nat.digits 10 v).map DTOC).reverse

/-- The if-expression of the C running-minimum update is `min`. -/
theorem if_lt_eq_min (a s : ℤ) : (if s < a then s else a) = min a s := by
  rcases le_total a s with h | h <;> simp [min_def, h] <;> omega

/-- The if-expression of the C running-maximum update is `max`. -/
theorem if_gt_eq_max (a s : ℤ) : (if s > a then s else a) = max a s := by
  rcases le_total a s with h | h <;> simp [max_def, h] <;> omega

theorem pass1_min_spec (m : ℚ) (U L : ℤ) :
    ∀ (l : List ℤ) (st : Pass1State),
      (l.foldl (pass1_step m U L) st).min = l.foldl min st.min := by
  intro l
  induction l with
  | nil => intro st; rfl
  | cons s t ih =>
    intro st
    rw [List.foldl_cons, List.foldl_cons, ih]
    congr 1
    simp only [pass1_step]
    exact if_lt_eq_min st.min s

theorem pass1_max_spec (m : ℚ) (U L : ℤ) :
    ∀ (l : List ℤ) (st : Pass1State),
      (l.foldl (pass1_step m U L) st).max = l.foldl max st.max := by
  intro l
  induction l with
  | nil => intro st; rfl
  | cons s t ih =>
    intro st
    rw [List.foldl_cons, List.foldl_cons, ih]
    congr 1
    simp only [pass1_step]
    exact if_gt_eq_max st.max s

theorem pass1_outliers_spec (m : ℚ) (U L : ℤ) :
    ∀ (l : List ℤ) (st : Pass1State),
      (l.foldl (pass1_step m U L) st).outliers = st.outliers + l.countP (outlierB U L) := by
  intro l
  induction l with
  | nil => intro st; simp
  | cons s t ih =>
    intro st
    rw [List.foldl_cons, ih, List.countP_cons]
    simp only [pass1_step]
    cases h : outlierB U L s <;> simp [h] <;> omega

theorem pass1_abdevSum_spec (m : ℚ) (U L : ℤ) :
    ∀ (l : List ℤ) (st : Pass1State),
      (l.foldl (pass1_step m U L) st).abdevSum
        = st.abdevSum + ((l.map (fun s : ℤ => |(s : ℚ) - m|)).sum) := by
  intro l
  induction l with
  | nil => intro st; simp
  | cons s t ih =>
    intro st
    rw [List.foldl_cons, ih]
    simp only [pass1_step, List.map_cons, List.sum_cons]
    ring

theorem pass1_stdevSum_spec (m : ℚ) (U L : ℤ) :
    ∀ (l : List ℤ) (st : Pass1State),
      (l.foldl (pass1_step m U L) st).stdevSum
        = st.stdevSum + ((l.map (fun s : ℤ => |(s : ℚ) - m| * |(s : ℚ) - m|)).sum) := by
  intro l
  induction l with
  | nil => intro st; simp
  | cons s t ih =>
    intro st
    rw [List.foldl_cons, ih]
    simp only [pass1_step, List.map_cons, List.sum_cons]
    ring

theorem pass1_normSum_spec (m : ℚ) (U L : ℤ) :
    ∀ (l : List ℤ) (st : Pass1State),
      (l.foldl (pass1_step m U L) st).normSum
        = st.normSum + (((l.filter (fun s => !outlierB U L s)).map (fun s : ℤ => (s : ℚ))).sum) := by
  intro l
  induction l with
  | nil => intro st; simp
  | cons s t ih =>
    intro st
    rw [List.foldl_cons, ih, List.filter_cons]
    cases h : outlierB U L s
    · simp only [pass1_step, h]
      simp
      ring
    · simp only [pass1_step, h]
      simp

theorem pass1_norm_min_spec (m : ℚ) (U L : ℤ) :
    ∀ (l : List ℤ) (st : Pass1State),
      (l.foldl (pass1_step m U L) st).norm_min
        = (l.filter (fun s => !outlierB U L s)).foldl min st.norm_min := by
  intro l
  induction l with
  | nil => intro st; rfl
  | cons s t ih =>
    intro st
    rw [List.foldl_cons, ih, List.filter_cons]
    cases h : outlierB U L s
    · simp only [h, Bool.not_false, if_true, List.foldl_cons]
      congr 1
      simp only [pass1_step, h]
      simpa using if_lt_eq_min st.norm_min s
    · simp only [h, Bool.not_true, if_false]
      congr 1
      simp [pass1_step, h]

theorem pass1_norm_max_spec (m : ℚ) (U L : ℤ) :
    ∀ (l : List ℤ) (st : Pass1State),
      (l.foldl (pass1_step m U L) st).norm_max
        = (l.filter (fun s => !outlierB U L s)).foldl max st.norm_max := by
  intro l
  induction l with
  | nil => intro st; rfl
  | cons s t ih =>
    intro st
    rw [List.foldl_cons, ih, List.filter_cons]
    cases h : outlierB U L s
    · simp only [h, Bool.not_false, if_true, List.foldl_cons]
      congr 1
      simp only [pass1_step, h]
      simpa using if_gt_eq_max st.norm_max s
    · simp only [h, Bool.not_true, if_false]
      congr 1
      simp [pass1_step, h]

theorem pass2_spec (nm : ℚ) (U L : ℤ) :
    ∀ (l : List ℤ) (acc : ℚ × ℚ),
      l.foldl
        (fun acc s =>
          if decide (s ≤ U) && decide (s ≥ L) then
            ((acc.1 + |(s : ℚ) - nm|), (acc.2 + |(s : ℚ) - nm| * |(s : ℚ) - nm|))
          else acc) acc
      = (acc.1 + (((l.filter (fun s => decide (s ≤ U) && decide (s ≥ L))).map
            (fun s : ℤ => |(s : ℚ) - nm|)).sum),
         acc.2 + (((l.filter (fun s => decide (s ≤ U) && decide (s ≥ L))).map
            (fun s : ℤ => |(s : ℚ) - nm| * |(s : ℚ) - nm|)).sum)) := by
  intro l
  induction l with
  | nil => intro acc; simp
  | cons s t ih =>
    intro acc
    rw [List.foldl_cons, ih, List.filter_cons]
    by_cases h : (decide (s ≤ U) && decide (s ≥ L)) = true
    · simp only [h, if_true, List.map_cons, List.sum_cons, Prod.mk.injEq]
      exact ⟨by ring, by ring⟩
    · rw [Bool.not_eq_true] at h
      simp [h]

theorem foldl_min_le_init : ∀ (l : List ℤ) (a : ℤ), l.foldl min a ≤ a := by
  intro l
  induction l with
  | nil => intro a; simp
  | cons s t ih =>
    intro a
    rw [List.foldl_cons]
    exact le_trans (ih _) (min_le_left a s)

theorem foldl_min_le_mem : ∀ (l : List ℤ) (a s : ℤ), s ∈ l → l.foldl min a ≤ s := by
  intro l
  induction l with
  | nil => intro a s h; cases h
  | cons x t ih =>
    intro a s h
    rw [List.foldl_cons]
    rcases List.mem_cons.mp h with rfl | h
    · exact le_trans (foldl_min_le_init t _) (min_le_right a s)
    · exact ih _ s h

theorem foldl_min_choice : ∀ (l : List ℤ) (a : ℤ), l.foldl min a = a ∨ l.foldl min a ∈ l := by
  intro l
  induction l with
  | nil => intro a; left; rfl
  | cons x t ih =>
    intro a
    rw [List.foldl_cons]
    rcases ih (min a x) with h | h
    · rcases min_choice a x with hc | hc
      · left; rw [h, hc]
      · right; rw [h, hc]; exact List.mem_cons_self x t
    · right; exact List.mem_cons_of_mem x h

theorem foldl_max_le_init : ∀ (l : List ℤ) (a : ℤ), a ≤ l.foldl max a := by
  intro l
  induction l with
  | nil => intro a; simp
  | cons s t ih =>
    intro a
    rw [List.foldl_cons]
    exact le_trans (le_max_left a s) (ih _)

theorem foldl_max_le_mem : ∀ (l : List ℤ) (a s : ℤ), s ∈ l → s ≤ l.foldl max a := by
  intro l
  induction l with
  | nil => intro a s h; cases h
  | cons x t ih =>
    intro a s h
    rw [List.foldl_cons]
    rcases List.mem_cons.mp h with rfl | h
    · exact le_trans (le_max_right a s) (foldl_max_le_init t _)
    · exact ih _ s h

theorem foldl_max_choice : ∀ (l : List ℤ) (a : ℤ), l.foldl max a = a ∨ l.foldl max a ∈ l := by
  intro l
  induction l with
  | nil => intro a; left; rfl
  | cons x t ih =>
    intro a
    rw [List.foldl_cons]
    rcases ih (max a x) with h | h
    · rcases max_choice a x with hc | hc
      · left; rw [h, hc]
      · right; rw [h, hc]; exact List.mem_cons_self x t
    · right; exact List.mem_cons_of_mem x h

theorem min?_eq_foldl_min (l : List ℤ) (a : ℤ) (hne : l ≠ [])
    (ha : ∀ s ∈ l, s ≤ a) : l.min? = some (l.foldl min a) := by
  cases l with
  | nil => cases hne rfl
  | cons x t =>
    have hx : min a x = x := min_eq_right (ha x (List.mem_cons_self x t))
    rw [List.min?_cons', List.foldl_cons, hx]

theorem max?_eq_foldl_max (l : List ℤ) (a : ℤ) (hne : l ≠ [])
    (ha : ∀ s ∈ l, a ≤ s) : l.max? = some (l.foldl max a) := by
  cases l with
  | nil => cases hne rfl
  | cons x t =>
    have hx : max a x = x := max_eq_right (ha x (List.mem_cons_self x t))
    rw [List.max?_cons', List.foldl_cons, hx]

theorem length_mul_le_sum (a : ℚ) :
    ∀ (L : List ℚ), (∀ x ∈ L, a ≤ x) → (L.length : ℚ) * a ≤ L.sum := by
  intro L
  induction L with
  | nil => intro _; simp
  | cons x t ih =>
    intro h
    have h1 := ih (fun y hy => h y (List.mem_cons_of_mem _ hy))
    have h2 := h x (List.mem_cons_self _ _)
    simp only [List.length_cons, List.sum_cons]
    push_cast
    ring_nf
    ring_nf at h1
    linarith

theorem sum_le_length_mul (a : ℚ) :
    ∀ (L : List ℚ), (∀ x ∈ L, x ≤ a) → L.sum ≤ (L.length : ℚ) * a := by
  intro L
  induction L with
  | nil => intro _; simp
  | cons x t ih =>
    intro h
    have h1 := ih (fun y hy => h y (List.mem_cons_of_mem _ hy))
    have h2 := h x (List.mem_cons_self _ _)
    simp only [List.length_cons, List.sum_cons]
    push_cast
    ring_nf
    ring_nf at h1
    linarith

theorem int_mean_lower (l : List ℤ) (hne : l ≠ []) (lo : ℤ)
    (hlo : ∀ s ∈ l, lo ≤ s) :
    (lo : ℚ) ≤ ((l.map (fun s : ℤ => (s : ℚ))).sum) / (l.length : ℚ) := by
  have hlen : (0 : ℚ) < (l.length : ℚ) := by
    have : 0 < l.length := List.length_pos.mpr hne
    exact_mod_cast this
  rw [le_div_iff hlen]
  have := length_mul_le_sum (lo : ℚ) (l.map (fun s : ℤ => (s : ℚ)))
    (by
      intro x hx
      rcases List.mem_map.mp hx with ⟨s, hs, rfl⟩
      exact_mod_cast hlo s hs)
  simpa [mul_comm] using this

theorem int_mean_upper (l : List ℤ) (hne : l ≠ []) (hi : ℤ)
    (hhi : ∀ s ∈ l, s ≤ hi) :
    ((l.map (fun s : ℤ => (s : ℚ))).sum) / (l.length : ℚ) ≤ (hi : ℚ) := by
  have hlen : (0 : ℚ) < (l.length : ℚ) := by
    have : 0 < l.length := List.length_pos.mpr hne
    exact_mod_cast this
  rw [div_le_iff hlen]
  have := sum_le_length_mul (hi : ℚ) (l.map (fun s : ℤ => (s : ℚ)))
    (by
      intro x hx
      rcases List.mem_map.mp hx with ⟨s, hs, rfl⟩
      exact_mod_cast hhi s hs)
  simpa [mul_comm] using this

theorem get_tolerance_eq_spec_form (l : List ℤ) :
    constats_get_tolerance l =
      if specSketchAbdev l > ((INF / 32 : ℤ) : ℚ) then INF
      else czTrunc (5 * specSketchAbdev l) := by
  have hn : (if l.length > 16 then l.length >>> 4 else l.length)
      = (if l.length ≤ 16 then l.length else l.length / 16) := by
    rcases le_or_lt l.length 16 with h | h
    · rw [if_neg (by omega), if_pos h]
    · rw [if_pos h, if_neg (by omega), Nat.shiftRight_eq_div_pow]
  have hm : (if l.length ≤ 16 then l.length else l.length / 16) ≤ l.length := by
    rcases le_or_lt l.length 16 with h | h
    · rw [if_pos h]
    · rw [if_neg (by omega)]
      exact Nat.div_le_self _ _
  have hlen : (l.take (if l.length ≤ 16 then l.length else l.length / 16)).length
      = (if l.length ≤ 16 then l.length else l.length / 16) := by
    rw [List.length_take]
    exact min_eq_left hm
  simp only [constats_get_tolerance, specSketchAbdev, hn, hlen]

theorem specSketchAbdev_nonneg (l : List ℤ) : 0 ≤ specSketchAbdev l := by
  unfold specSketchAbdev
  apply div_nonneg
  · apply List.sum_nonneg
    intro x hx
    rcases List.mem_map.mp hx with ⟨s, _, rfl⟩
    exact abs_nonneg _
  · exact Nat.cast_nonneg _

/-- C2 (amended): the tolerance is the sketch mean absolute deviation
(over the first `⌊N/16⌋` samples when `N > 16`, else all of them, around
their own local mean) multiplied by 5 and then truncated to an integer
(the C `return` converts the float to `int64_t`; the value is nonnegative
so the truncation is a floor) — not the exact product `5 × sketch_abdev`
— and the `INF` clamp fires when the sketch abdev exceeds the integer
quotient `INF / 32`. -/
theorem get_tolerance_is_floor_of_five_sketch (l : List ℤ) :
    constats_get_tolerance l =
      if specSketchAbdev l > ((INF / 32 : ℤ) : ℚ) then INF
      else ⌊5 * specSketchAbdev l⌋ := by
  rw [get_tolerance_eq_spec_form]
  have h0 : (0 : ℚ) ≤ 5 * specSketchAbdev l :=
    mul_nonneg (by norm_num) (specSketchAbdev_nonneg l)
  rw [czTrunc, if_pos h0]

/-- C4: `constats_calculate_stats` fails exactly when the sample size is
zero or the output handle is `NULL`; the failure is signalled before any
field of the output structure is written (the model returns `none`
without constructing a `stats_t`), and on every other input the function
succeeds — there is no other failure path. -/
theorem calculate_stats_error_iff (sample_set : List ℤ) (stat_is_null : Bool) :
    constats_calculate_stats sample_set stat_is_null = none ↔
      stat_is_null = true ∨ sample_set.length = 0 := by
  unfold constats_calculate_stats
  split_ifs with h
  · simp only [Bool.or_eq_true, decide_eq_true_eq] at h
    simpa using h
  · simp only [Bool.or_eq_true, decide_eq_true_eq] at h
    simpa using h

section
attribute [local semireducible] Rat.add Rat.mul Rat.inv Rat.sub

/-- C2: counterexample to the claim as stated.  For the samples `[0, 1]`
the sketch abdev is `1/2`, so the claim's tolerance would be
`5 × (1/2) = 5/2`; the code converts that float to `int64_t` and returns
`2`, which differs. -/
theorem get_tolerance_not_exact_five_sketch_cex :
    constats_get_tolerance [0, 1] = 2 ∧ 5 * specSketchAbdev [0, 1] = 5 / 2 ∧
      ((2 : ℚ) ≠ 5 / 2) := by decide

end

theorem calcStats_N (l : List ℤ) : (calcStats l).N = l.length := rfl

theorem calcStats_mean (l : List ℤ) : (calcStats l).mean = constats_get_mean l := rfl

theorem calcStats_tolerance (l : List ℤ) :
    (calcStats l).tolerance = constats_get_tolerance l := rfl

theorem calcStats_min (l : List ℤ) : (calcStats l).min = l.foldl min INF := by
  simp only [calcStats, pass1]
  rw [pass1_min_spec]

theorem calcStats_max (l : List ℤ) : (calcStats l).max = l.foldl max NINF := by
  simp only [calcStats, pass1]
  rw [pass1_max_spec]

theorem calcStats_outliers (l : List ℤ) :
    (calcStats l).outliers =
      l.countP (outlierB (upper_thresh (constats_get_mean l) (constats_get_tolerance l))
        (lower_thresh (constats_get_mean l) (constats_get_tolerance l))) := by
  simp only [calcStats, pass1]
  rw [pass1_outliers_spec]
  norm_num

theorem calcStats_norm_min (l : List ℤ) :
    (calcStats l).norm_min =
      (l.filter (fun s =>
        !outlierB (upper_thresh (constats_get_mean l) (constats_get_tolerance l))
          (lower_thresh (constats_get_mean l) (constats_get_tolerance l)) s)).foldl min INF := by
  simp only [calcStats, pass1]
  rw [pass1_norm_min_spec]

theorem calcStats_norm_max (l : List ℤ) :
    (calcStats l).norm_max =
      (l.filter (fun s =>
        !outlierB (upper_thresh (constats_get_mean l) (constats_get_tolerance l))
          (lower_thresh (constats_get_mean l) (constats_get_tolerance l)) s)).foldl max NINF := by
  simp only [calcStats, pass1]
  rw [pass1_norm_max_spec]

theorem calcStats_norm_mean (l : List ℤ) :
    (calcStats l).norm_mean =
      (((l.filter (fun s =>
          !outlierB (upper_thresh (constats_get_mean l) (constats_get_tolerance l))
            (lower_thresh (constats_get_mean l) (constats_get_tolerance l)) s)).map
        (fun s : ℤ => (s : ℚ))).sum) / ((l.length - (calcStats l).outliers : ℕ) : ℚ) := by
  simp only [calcStats, pass1]
  rw [pass1_normSum_spec, pass1_outliers_spec]
  norm_num

theorem calcStats_stdev_sq (l : List ℤ) :
    (calcStats l).stdev_sq =
      ((l.map (fun s : ℤ =>
        |(s : ℚ) - constats_get_mean l| * |(s : ℚ) - constats_get_mean l|)).sum)
        / (l.length : ℚ) := by
  simp only [calcStats, pass1]
  rw [pass1_stdevSum_spec]
  norm_num

theorem calcStats_abdev (l : List ℤ) :
    (calcStats l).abdev =
      ((l.map (fun s : ℤ => |(s : ℚ) - constats_get_mean l|)).sum) / (l.length : ℚ) := by
  simp only [calcStats, pass1]
  rw [pass1_abdevSum_spec]
  norm_num

theorem czTrunc_mono {q1 q2 : ℚ} (h : q1 ≤ q2) : czTrunc q1 ≤ czTrunc q2 := by
  unfold czTrunc
  split_ifs with h1 h2 h2
  · exact Int.floor_le_floor h
  · exact absurd (le_trans h1 h) h2
  · have hc : ⌈q1⌉ ≤ 0 := Int.ceil_le.mpr (by push_cast; linarith [not_le.mp h1])
    have hf : (0 : ℤ) ≤ ⌊q2⌋ := Int.floor_nonneg.mpr h2
    omega
  · exact Int.ceil_le_ceil h

/-- C6 (amended): with every sample inside the sentinel range
`[NINF, INF] = [-(2^63 - 1), 2^63 - 1]`, the outlier count of the
first-pass classifier is non-increasing in the tolerance radius (for
radii in the `int64_t` range, the sentinel `INF` meaning the infinite
tolerance).  Without the range restriction this fails: the value
`-2^63` lies below `NINF` and is classified as an outlier under the
infinite sentinel but not under small finite radii. -/
theorem outlier_count_antitone_in_tolerance (l : List ℤ) (m : ℚ) (t1 t2 : ℤ)
    (h12 : t1 ≤ t2) (h2 : t2 ≤ INF)
    (hb : ∀ s ∈ l, NINF ≤ s ∧ s ≤ INF) :
    countOutliers l m t2 ≤ countOutliers l m t1 := by
  unfold countOutliers
  apply List.countP_mono_left
  intro s hs hout
  simp only [outlierB, Bool.or_eq_true, decide_eq_true_eq] at hout ⊢
  by_cases ht2 : t2 = INF
  · exfalso
    rw [ht2] at hout
    simp only [upper_thresh, lower_thresh, if_pos rfl] at hout
    rcases hout with hgt | hlt
    · exact absurd (hb s hs).2 (not_le.mpr hgt)
    · exact absurd (hb s hs).1 (not_le.mpr hlt)
  · have ht1 : t1 ≠ INF := by
      intro hc
      rw [hc] at h12
      omega
    simp only [upper_thresh, lower_thresh, if_neg ht1, if_neg ht2] at hout ⊢
    have hU : czTrunc (m + (t1 : ℚ)) ≤ czTrunc (m + (t2 : ℚ)) :=
      czTrunc_mono (by
        have : (t1 : ℚ) ≤ (t2 : ℚ) := by exact_mod_cast h12
        linarith)
    have hL : czTrunc (m - (t2 : ℚ)) ≤ czTrunc (m - (t1 : ℚ)) :=
      czTrunc_mono (by
        have : (t1 : ℚ) ≤ (t2 : ℚ) := by exact_mod_cast h12
        linarith)
    rcases hout with hgt | hlt
    · exact Or.inl (lt_of_le_of_lt hU hgt)
    · exact Or.inr (lt_of_lt_of_le hlt hL)

section
attribute [local semireducible] Rat.add Rat.mul Rat.inv Rat.sub

/-- C6: counterexample to the claim as stated.  For the one-sample array
`[-2^63]` with the mean held at `-2^63`, radius `0` classifies nothing
as an outlier, but the larger radius `INF` (the sentinel, whose bounds
are the finite values `NINF`/`INF`, not real infinities) classifies the
sample — which lies below `NINF` — as an outlier: the count increases
from 0 to 1. -/
theorem outlier_count_not_antitone_cex :
    (0 : ℤ) ≤ INF ∧
    countOutliers [-9223372036854775808] (-9223372036854775808 : ℚ) 0 = 0 ∧
    countOutliers [-9223372036854775808] (-9223372036854775808 : ℚ) INF = 1 := by
  decide

/-- C6 witness: the amended monotonicity applied at samples `[0, 5]`,
mean `1`, radii `1 ≤ 5`. -/
theorem outlier_count_antitone_in_tolerance_witness :
    countOutliers [0, 5] 1 5 ≤ countOutliers [0, 5] 1 1 :=
  outlier_count_antitone_in_tolerance [0, 5] 1 1 5 (by decide) (by decide)
    (by decide)

end

theorem calculate_stats_some (l : List ℤ) (st : stats_t)
    (hst : constats_calculate_stats l false = some st) :
    st = calcStats l ∧ l ≠ [] := by
  unfold constats_calculate_stats at hst
  rcases Nat.eq_zero_or_pos l.length with h | h
  · rw [if_pos (by simp [h])] at hst
    exact Option.noConfusion hst
  · rw [if_neg (by
      simp only [Bool.or_eq_true, decide_eq_true_eq, not_or]
      exact ⟨by simp, by omega⟩)] at hst
    refine ⟨(Option.some_inj.mp hst).symm, ?_⟩
    intro hnil
    rw [hnil] at h
    simp at h

theorem mean_sandwich (l : List ℤ) (hne : l ≠ []) :
    ((l.foldl min INF : ℤ) : ℚ) ≤ ((l.map (fun s : ℤ => (s : ℚ))).sum) / (l.length : ℚ) ∧
    ((l.map (fun s : ℤ => (s : ℚ))).sum) / (l.length : ℚ) ≤ ((l.foldl max NINF : ℤ) : ℚ) :=
  ⟨int_mean_lower l hne _ (fun s hs => foldl_min_le_mem l INF s hs),
   int_mean_upper l hne _ (fun s hs => foldl_max_le_mem l NINF s hs)⟩

theorem countP_not_add_countP {α : Type} (p : α → Bool) (l : List α) :
    l.countP (fun a => !p a) + l.countP p = l.length := by
  induction l with
  | nil => rfl
  | cons x t ih =>
    simp only [List.countP_cons, List.length_cons]
    cases h : p x <;> simp [h] <;> omega

theorem foldl_min_filter_ge (l : List ℤ) (p : ℤ → Bool) :
    l.foldl min INF ≤ (l.filter p).foldl min INF := by
  rcases foldl_min_choice (l.filter p) INF with h | h
  · rw [h]; exact foldl_min_le_init l INF
  · exact foldl_min_le_mem l INF _ (List.mem_of_mem_filter h)

theorem foldl_max_filter_le (l : List ℤ) (p : ℤ → Bool) :
    (l.filter p).foldl max NINF ≤ l.foldl max NINF := by
  rcases foldl_max_choice (l.filter p) NINF with h | h
  · rw [h]; exact foldl_max_le_init l NINF
  · exact foldl_max_le_mem l NINF _ (List.mem_of_mem_filter h)

/-- C5: for any stats produced by `constats_calculate_stats`,
`min ≤ mean ≤ max`, and whenever `outliers < count` also
`norm_min ≤ norm_mean ≤ norm_max`, `min ≤ norm_min` and
`norm_max ≤ max` (exact rational arithmetic in place of the C floats). -/
theorem calculate_stats_order_invariants (l : List ℤ) (st : stats_t)
    (hst : constats_calculate_stats l false = some st) :
    (((st.min : ℤ) : ℚ) ≤ st.mean ∧ st.mean ≤ ((st.max : ℤ) : ℚ)) ∧
    (st.outliers < l.length →
      ((st.norm_min : ℤ) : ℚ) ≤ st.norm_mean ∧
        st.norm_mean ≤ ((st.norm_max : ℤ) : ℚ) ∧
        st.min ≤ st.norm_min ∧ st.norm_max ≤ st.max) := by
  rcases calculate_stats_some l st hst with ⟨rfl, hne⟩
  constructor
  · rw [calcStats_min, calcStats_max, calcStats_mean]
    unfold constats_get_mean
    exact mean_sandwich l hne
  · intro hlt
    rw [calcStats_outliers] at hlt
    have hcnt := countP_not_add_countP
      (outlierB (upper_thresh (constats_get_mean l) (constats_get_tolerance l))
        (lower_thresh (constats_get_mean l) (constats_get_tolerance l))) l
    have hlenf : (l.filter (fun s =>
        !outlierB (upper_thresh (constats_get_mean l) (constats_get_tolerance l))
          (lower_thresh (constats_get_mean l) (constats_get_tolerance l)) s)).length
        = l.length - l.countP (outlierB
            (upper_thresh (constats_get_mean l) (constats_get_tolerance l))
            (lower_thresh (constats_get_mean l) (constats_get_tolerance l))) := by
      rw [← List.countP_eq_length_filter]
      omega
    have hfne : l.filter (fun s =>
        !outlierB (upper_thresh (constats_get_mean l) (constats_get_tolerance l))
          (lower_thresh (constats_get_mean l) (constats_get_tolerance l)) s) ≠ [] := by
      have h0 : 0 < (l.filter (fun s =>
          !outlierB (upper_thresh (constats_get_mean l) (constats_get_tolerance l))
            (lower_thresh (constats_get_mean l) (constats_get_tolerance l)) s)).length := by
        rw [hlenf]
        omega
      exact List.length_pos.mp h0
    have hnm : (calcStats l).norm_mean =
        (((l.filter (fun s =>
            !outlierB (upper_thresh (constats_get_mean l) (constats_get_tolerance l))
              (lower_thresh (constats_get_mean l) (constats_get_tolerance l)) s)).map
          (fun s : ℤ => (s : ℚ))).sum) /
        (((l.filter (fun s =>
            !outlierB (upper_thresh (constats_get_mean l) (constats_get_tolerance l))
              (lower_thresh (constats_get_mean l) (constats_get_tolerance l)) s)).length : ℕ) : ℚ) := by
      rw [calcStats_norm_mean, calcStats_outliers, hlenf]
    have hsw := mean_sandwich _ hfne
    refine ⟨?_, ?_, ?_, ?_⟩
    · rw [calcStats_norm_min, hnm]
      exact hsw.1
    · rw [calcStats_norm_max, hnm]
      exact hsw.2
    · rw [calcStats_min, calcStats_norm_min]
      exact foldl_min_filter_ge l _
    · rw [calcStats_max, calcStats_norm_max]
      exact foldl_max_filter_le l _

/-- C5 witness: the invariants instantiated at the sample set `[0, 1]`. -/
theorem calculate_stats_order_invariants_witness :
    ((((calcStats [0, 1]).min : ℤ) : ℚ) ≤ (calcStats [0, 1]).mean ∧
      (calcStats [0, 1]).mean ≤ (((calcStats [0, 1]).max : ℤ) : ℚ)) ∧
    ((calcStats [0, 1]).outliers < [0, 1].length →
      (((calcStats [0, 1]).norm_min : ℤ) : ℚ) ≤ (calcStats [0, 1]).norm_mean ∧
        (calcStats [0, 1]).norm_mean ≤ (((calcStats [0, 1]).norm_max : ℤ) : ℚ) ∧
        (calcStats [0, 1]).min ≤ (calcStats [0, 1]).norm_min ∧
        (calcStats [0, 1]).norm_max ≤ (calcStats [0, 1]).max) :=
  calculate_stats_order_invariants [0, 1] (calcStats [0, 1]) rfl

theorem pass2_cond_eq (U L s : ℤ) :
    (decide (s ≤ U) && decide (s ≥ L)) = !outlierB U L s := by
  simp only [outlierB, Bool.not_or, ← decide_not]
  congr 1
  · exact decide_eq_decide.mpr not_lt.symm
  · exact decide_eq_decide.mpr not_lt.symm

theorem calcStats_norm_stdev_sq (l : List ℤ) :
    (calcStats l).norm_stdev_sq =
      (((l.filter (fun s =>
          !outlierB (upper_thresh (constats_get_mean l) (constats_get_tolerance l))
            (lower_thresh (constats_get_mean l) (constats_get_tolerance l)) s)).map
        (fun s : ℤ => |(s : ℚ) - (calcStats l).norm_mean|
          * |(s : ℚ) - (calcStats l).norm_mean|)).sum)
      / ((l.length - (calcStats l).outliers : ℕ) : ℚ) := by
  simp only [calcStats, pass2]
  rw [pass2_spec]
  simp only [pass2_cond_eq]
  norm_num

theorem calcStats_norm_abdev (l : List ℤ) :
    (calcStats l).norm_abdev =
      (((l.filter (fun s =>
          !outlierB (upper_thresh (constats_get_mean l) (constats_get_tolerance l))
            (lower_thresh (constats_get_mean l) (constats_get_tolerance l)) s)).map
        (fun s : ℤ => |(s : ℚ) - (calcStats l).norm_mean|)).sum)
      / ((l.length - (calcStats l).outliers : ℕ) : ℚ) := by
  simp only [calcStats, pass2]
  rw [pass2_spec]
  simp only [pass2_cond_eq]
  norm_num

/-- C3: `stdev` is the square root of the sum of squared deviations from
the mean divided by `N` (population variance, not `N-1`) — here stated of
the radicand `stdev_sq`, since the model keeps the quantity under the C
code's `sqrt` — `abdev` is the sum of absolute deviations divided by `N`,
and the normalized moments are computed in the second pass over exactly
the non-outlier samples, as deviations from `norm_mean` divided by
`N - outliers`, with `norm_mean` the sum of non-outlier samples divided
by `N - outliers`. -/
theorem calculate_stats_moments_population (l : List ℤ) (st : stats_t)
    (hst : constats_calculate_stats l false = some st) :
    st.stdev_sq = ((l.map (fun s : ℤ => ((s : ℚ) - st.mean) ^ 2)).sum) / (l.length : ℚ) ∧
    st.abdev = ((l.map (fun s : ℤ => |(s : ℚ) - st.mean|)).sum) / (l.length : ℚ) ∧
    st.norm_mean =
      (((l.filter (fun s =>
          !outlierB (upper_thresh st.mean st.tolerance)
            (lower_thresh st.mean st.tolerance) s)).map
        (fun s : ℤ => (s : ℚ))).sum) / ((l.length - st.outliers : ℕ) : ℚ) ∧
    st.norm_stdev_sq =
      (((l.filter (fun s =>
          !outlierB (upper_thresh st.mean st.tolerance)
            (lower_thresh st.mean st.tolerance) s)).map
        (fun s : ℤ => ((s : ℚ) - st.norm_mean) ^ 2)).sum)
      / ((l.length - st.outliers : ℕ) : ℚ) ∧
    st.norm_abdev =
      (((l.filter (fun s =>
          !outlierB (upper_thresh st.mean st.tolerance)
            (lower_thresh st.mean st.tolerance) s)).map
        (fun s : ℤ => |(s : ℚ) - st.norm_mean|)).sum)
      / ((l.length - st.outliers : ℕ) : ℚ) := by
  rcases calculate_stats_some l st hst with ⟨rfl, hne⟩
  have habs : ∀ m : ℚ, (fun s : ℤ => |(s : ℚ) - m| * |(s : ℚ) - m|)
      = (fun s : ℤ => ((s : ℚ) - m) ^ 2) := by
    intro m
    funext s
    rw [abs_mul_abs_self]
    ring
  refine ⟨?_, ?_, ?_, ?_, ?_⟩
  · rw [calcStats_mean, calcStats_stdev_sq, habs]
  · rw [calcStats_mean, calcStats_abdev]
  · rw [calcStats_mean, calcStats_tolerance, calcStats_norm_mean]
  · rw [calcStats_mean, calcStats_tolerance, calcStats_norm_stdev_sq, habs]
  · rw [calcStats_mean, calcStats_tolerance, calcStats_norm_abdev]

/-- C3 witness: the moment identities instantiated at the sample set
`[0, 1]`. -/
theorem calculate_stats_moments_population_witness :
    (calcStats [0, 1]).stdev_sq =
      (([0, 1].map (fun s : ℤ => ((s : ℚ) - (calcStats [0, 1]).mean) ^ 2)).sum)
        / ([0, 1].length : ℚ) ∧
    (calcStats [0, 1]).abdev =
      (([0, 1].map (fun s : ℤ => |(s : ℚ) - (calcStats [0, 1]).mean|)).sum)
        / ([0, 1].length : ℚ) ∧
    (calcStats [0, 1]).norm_mean =
      ((([0, 1].filter (fun s =>
          !outlierB (upper_thresh (calcStats [0, 1]).mean (calcStats [0, 1]).tolerance)
            (lower_thresh (calcStats [0, 1]).mean (calcStats [0, 1]).tolerance) s)).map
        (fun s : ℤ => (s : ℚ))).sum)
        / (([0, 1].length - (calcStats [0, 1]).outliers : ℕ) : ℚ) ∧
    (calcStats [0, 1]).norm_stdev_sq =
      ((([0, 1].filter (fun s =>
          !outlierB (upper_thresh (calcStats [0, 1]).mean (calcStats [0, 1]).tolerance)
            (lower_thresh (calcStats [0, 1]).mean (calcStats [0, 1]).tolerance) s)).map
        (fun s : ℤ => ((s : ℚ) - (calcStats [0, 1]).norm_mean) ^ 2)).sum)
        / (([0, 1].length - (calcStats [0, 1]).outliers : ℕ) : ℚ) ∧
    (calcStats [0, 1]).norm_abdev =
      ((([0, 1].filter (fun s =>
          !outlierB (upper_thresh (calcStats [0, 1]).mean (calcStats [0, 1]).tolerance)
            (lower_thresh (calcStats [0, 1]).mean (calcStats [0, 1]).tolerance) s)).map
        (fun s : ℤ => |(s : ℚ) - (calcStats [0, 1]).norm_mean|)).sum)
        / (([0, 1].length - (calcStats [0, 1]).outliers : ℕ) : ℚ) :=
  calculate_stats_moments_population [0, 1] (calcStats [0, 1]) rfl

/-- C1 (amended): for stats produced over samples inside the sentinel
range `[NINF, INF] = [-(2^63-1), 2^63-1]`, the first pass classifies a
sample as an outlier exactly when it is above `upper_thresh` or below
`lower_thresh` — the thresholds being `mean ± tolerance` truncated toward
zero to `int64_t`, and the *finite* values `INF`/`NINF` (not real
infinities) when the tolerance is the `INF` sentinel — sets `outliers`
to the number of such samples, sets `min`/`max` to the minimum and
maximum of all samples, and accumulates the sum and the running
min/max of the non-outlier samples for the normalized fields. -/
theorem calculate_stats_first_pass (l : List ℤ) (st : stats_t)
    (hst : constats_calculate_stats l false = some st)
    (hb : ∀ s ∈ l, NINF ≤ s ∧ s ≤ INF) :
    st.outliers = l.countP (outlierB (upper_thresh st.mean st.tolerance)
      (lower_thresh st.mean st.tolerance)) ∧
    l.min? = some st.min ∧
    l.max? = some st.max ∧
    st.norm_mean =
      (((l.filter (fun s =>
          !outlierB (upper_thresh st.mean st.tolerance)
            (lower_thresh st.mean st.tolerance) s)).map
        (fun s : ℤ => (s : ℚ))).sum) / ((l.length - st.outliers : ℕ) : ℚ) ∧
    (st.outliers < l.length →
      (l.filter (fun s =>
          !outlierB (upper_thresh st.mean st.tolerance)
            (lower_thresh st.mean st.tolerance) s)).min? = some st.norm_min ∧
      (l.filter (fun s =>
          !outlierB (upper_thresh st.mean st.tolerance)
            (lower_thresh st.mean st.tolerance) s)).max? = some st.norm_max) := by
  rcases calculate_stats_some l st hst with ⟨rfl, hne⟩
  refine ⟨?_, ?_, ?_, ?_, ?_⟩
  · rw [calcStats_mean, calcStats_tolerance, calcStats_outliers]
  · rw [calcStats_min]
    exact min?_eq_foldl_min l INF hne (fun s hs => (hb s hs).2)
  · rw [calcStats_max]
    exact max?_eq_foldl_max l NINF hne (fun s hs => (hb s hs).1)
  · rw [calcStats_mean, calcStats_tolerance, calcStats_norm_mean]
  · intro hlt
    rw [calcStats_mean, calcStats_tolerance]
    rw [calcStats_outliers] at hlt
    have hcnt := countP_not_add_countP
      (outlierB (upper_thresh (constats_get_mean l) (constats_get_tolerance l))
        (lower_thresh (constats_get_mean l) (constats_get_tolerance l))) l
    have hlenf : (l.filter (fun s =>
        !outlierB (upper_thresh (constats_get_mean l) (constats_get_tolerance l))
          (lower_thresh (constats_get_mean l) (constats_get_tolerance l)) s)).length
        = l.length - l.countP (outlierB
            (upper_thresh (constats_get_mean l) (constats_get_tolerance l))
            (lower_thresh (constats_get_mean l) (constats_get_tolerance l))) := by
      rw [← List.countP_eq_length_filter]
      omega
    have hfne : l.filter (fun s =>
        !outlierB (upper_thresh (constats_get_mean l) (constats_get_tolerance l))
          (lower_thresh (constats_get_mean l) (constats_get_tolerance l)) s) ≠ [] := by
      have h0 : 0 < (l.filter (fun s =>
          !outlierB (upper_thresh (constats_get_mean l) (constats_get_tolerance l))
            (lower_thresh (constats_get_mean l) (constats_get_tolerance l)) s)).length := by
        rw [hlenf]
        omega
      exact List.length_pos.mp h0
    constructor
    · rw [calcStats_norm_min]
      exact min?_eq_foldl_min _ INF hfne
        (fun s hs => (hb s (List.mem_of_mem_filter hs)).2)
    · rw [calcStats_norm_max]
      exact max?_eq_foldl_max _ NINF hfne
        (fun s hs => (hb s (List.mem_of_mem_filter hs)).1)

section
attribute [local semireducible] Rat.add Rat.mul Rat.inv Rat.sub

/-- C1: counterexample to the claim as stated.  On the samples
`[-2^63, 2^63-1]` the tolerance is the `INF` sentinel, so under the
claim's reading (bounds taken as real minus/plus infinity) no sample
lies outside them and `outliers` would be `0`; but the code compares
against the finite bounds `NINF`/`INF`, the sample `-2^63 < NINF` is
classified as an outlier, and `outliers = 1`. -/
theorem calculate_stats_outlier_inf_sentinel_cex :
    (calcStats [-9223372036854775808, 9223372036854775807]).tolerance = INF ∧
    (calcStats [-9223372036854775808, 9223372036854775807]).outliers = 1 := by
  decide

/-- C1 witness: the amended first-pass characterization instantiated at
the sample set `[0, 1]`. -/
theorem calculate_stats_first_pass_witness :
    (calcStats [0, 1]).outliers =
      [0, 1].countP (outlierB
        (upper_thresh (calcStats [0, 1]).mean (calcStats [0, 1]).tolerance)
        (lower_thresh (calcStats [0, 1]).mean (calcStats [0, 1]).tolerance)) ∧
    [0, 1].min? = some (calcStats [0, 1]).min ∧
    [0, 1].max? = some (calcStats [0, 1]).max ∧
    (calcStats [0, 1]).norm_mean =
      ((([0, 1].filter (fun s =>
          !outlierB (upper_thresh (calcStats [0, 1]).mean (calcStats [0, 1]).tolerance)
            (lower_thresh (calcStats [0, 1]).mean (calcStats [0, 1]).tolerance) s)).map
        (fun s : ℤ => (s : ℚ))).sum)
        / (([0, 1].length - (calcStats [0, 1]).outliers : ℕ) : ℚ) ∧
    ((calcStats [0, 1]).outliers < [0, 1].length →
      ([0, 1].filter (fun s =>
          !outlierB (upper_thresh (calcStats [0, 1]).mean (calcStats [0, 1]).tolerance)
            (lower_thresh (calcStats [0, 1]).mean (calcStats [0, 1]).tolerance) s)).min?
        = some (calcStats [0, 1]).norm_min ∧
      ([0, 1].filter (fun s =>
          !outlierB (upper_thresh (calcStats [0, 1]).mean (calcStats [0, 1]).tolerance)
            (lower_thresh (calcStats [0, 1]).mean (calcStats [0, 1]).tolerance) s)).max?
        = some (calcStats [0, 1]).norm_max) :=
  calculate_stats_first_pass [0, 1] (calcStats [0, 1]) rfl (by decide)

end

theorem zhistLoop_eq_map (l : List ℤ) (nm ns maxZ : ℚ) :
    ∀ (n : ℕ) (i : ℚ), n = (⌈2 * (maxZ - i)⌉).toNat →
      zhistLoop l nm ns maxZ i =
        (List.range n).map (fun k : ℕ =>
          constats_print_zrange_bar l nm ns (i + (k : ℚ) * (1/2))
            (i + ((k : ℚ) + 1) * (1/2))) := by
  intro n
  induction n with
  | zero =>
    intro i hn
    rw [zhistLoop]
    rw [dif_neg]
    · simp
    · intro hlt
      have hx : (0 : ℚ) < 2 * (maxZ - i) := by linarith
      have := Int.ceil_pos.mpr hx
      omega
  | succ n ih =>
    intro i hn
    have hlt : i < maxZ := by
      by_contra hge
      push_neg at hge
      have h0 : ⌈2 * (maxZ - i)⌉ ≤ 0 := Int.ceil_le.mpr (by push_cast; linarith)
      omega
    rw [zhistLoop, dif_pos hlt]
    have hstep : n = (⌈2 * (maxZ - (i + 1/2))⌉).toNat := by
      have h2 : ⌈2 * (maxZ - (i + 1/2))⌉ = ⌈2 * (maxZ - i)⌉ - 1 := by
        rw [show 2 * (maxZ - (i + 1/2)) = 2 * (maxZ - i) - 1 by ring, Int.ceil_sub_one]
      have hx : (0 : ℚ) < 2 * (maxZ - i) := by linarith
      have h1 := Int.ceil_pos.mpr hx
      omega
    rw [ih _ hstep, List.range_succ_eq_map]
    simp only [List.map_cons, List.map_map]
    congr 1
    · norm_num
    · apply List.map_congr_left
      intro k _
      simp only [Function.comp_apply]
      have harg : ∀ a b c d : ℚ, a = c → b = d →
          constats_print_zrange_bar l nm ns a b = constats_print_zrange_bar l nm ns c d := by
        intro a b c d h1 h2
        rw [h1, h2]
      apply harg <;> push_cast <;> ring

theorem clamp_lo_eq_max (x : ℚ) : (if x < -3 then (-3 : ℚ) else x) = max (-3) x := by
  rcases le_or_lt x (-3) with h | h
  · rcases eq_or_lt_of_le h with h' | h'
    · simp [h', max_def]
    · rw [if_pos h', max_eq_left (le_of_lt h')]
  · rw [if_neg (not_lt.mpr (le_of_lt h)), max_eq_right (le_of_lt h)]

theorem clamp_hi_eq_min (x : ℚ) : (if x > 3 then (3 : ℚ) else x) = min 3 x := by
  rcases le_or_lt x 3 with h | h
  · rw [if_neg (not_lt.mpr h), min_eq_right h]
  · rw [if_pos h, min_eq_left (le_of_lt h)]

/-- C7 (amended): the histogram emits consecutive half-wide z-score
buckets `[z, z + 0.5)` starting at `zmin = max(-3, zscore(min))`,
stepping by `0.5` until `z ≥ zmax = min(3, zscore(max))` (that is,
`⌈2(zmax - zmin)⌉` buckets); when `zmin ≥ zmax` it emits exactly one
bucket `[-0.5, 0.5)`; the z-score of `v` is `(v - norm_mean)/norm_stdev`,
`0` when `norm_stdev = 0`; each bucket's raw bounds are
`norm_mean + z·norm_stdev` *truncated toward zero to an integer* (the
C code passes the double through a `uint64_t`/`int64_t` conversion), and
its count is the number of samples in `[raw_low, raw_high]` inclusive,
against those integer bounds. -/
theorem print_zhistogram_buckets (l : List ℤ) (nm ns : ℚ) (minv maxv : ℤ) :
    (constats_print_zhistogram l nm ns minv maxv =
      if max (-3) (constats_zscore_value nm ns minv)
          ≥ min 3 (constats_zscore_value nm ns maxv) then
        [(czTrunc (nm + (-(1/2)) * ns), czTrunc (nm + (1/2) * ns),
          constats_count_in_range l (czTrunc (nm + (-(1/2)) * ns))
            (czTrunc (nm + (1/2) * ns)))]
      else
        (List.range ((⌈2 * (min 3 (constats_zscore_value nm ns maxv)
            - max (-3) (constats_zscore_value nm ns minv))⌉).toNat)).map (fun k : ℕ =>
          (czTrunc (nm + (max (-3) (constats_zscore_value nm ns minv)
              + (k : ℚ) * (1/2)) * ns),
           czTrunc (nm + (max (-3) (constats_zscore_value nm ns minv)
              + ((k : ℚ) + 1) * (1/2)) * ns),
           constats_count_in_range l
             (czTrunc (nm + (max (-3) (constats_zscore_value nm ns minv)
                + (k : ℚ) * (1/2)) * ns))
             (czTrunc (nm + (max (-3) (constats_zscore_value nm ns minv)
                + ((k : ℚ) + 1) * (1/2)) * ns))))) ∧
    (∀ v : ℤ, constats_zscore_value nm ns v
      = if ns = 0 then 0 else ((v : ℚ) - nm) / ns) ∧
    (∀ z : ℚ, constats_zrange_value nm ns z = czTrunc (nm + z * ns)) := by
  refine ⟨?_, fun v => rfl, fun z => rfl⟩
  simp only [constats_print_zhistogram, clamp_lo_eq_max, clamp_hi_eq_min]
  split_ifs with h
  · have hloop : zhistLoop l nm ns (min 3 (constats_zscore_value nm ns maxv))
        (max (-3) (constats_zscore_value nm ns minv)) = [] := by
      rw [zhistLoop_eq_map l nm ns _ 0 _ ?_]
      · simp
      · have h0 : ⌈2 * (min 3 (constats_zscore_value nm ns maxv)
            - max (-3) (constats_zscore_value nm ns minv))⌉ ≤ 0 :=
          Int.ceil_le.mpr (by push_cast; linarith [h])
        omega
    rw [hloop]
    simp [constats_print_zrange_bar, constats_zrange_value]
  · rw [List.nil_append]
    rw [zhistLoop_eq_map l nm ns _ _ _ rfl]
    apply List.map_congr_left
    intro k _
    simp [constats_print_zrange_bar, constats_zrange_value]

section
attribute [local semireducible] Rat.add Rat.mul Rat.inv Rat.sub

/-- C7: counterexample to the claim as stated.  With stats fields
`norm_mean = 0`, `norm_stdev = 5`, `min = 0`, `max = 5` and the samples
`[2]`, the histogram's second bucket is the z-range `[1/2, 1)`; the
claim's raw lower bound is `norm_mean + z·norm_stdev = 5/2`, and no
sample lies in `[5/2, 5]` — yet the code's bucket is `(2, 5)` with
count `1`, because the bound is truncated to the integer `2 ≠ 5/2`
before counting. -/
theorem zhistogram_bounds_truncated_cex :
    constats_print_zhistogram [2] 0 5 0 5 = [(0, 2, 1), (2, 5, 1)] ∧
    (0 : ℚ) + (1/2) * 5 = 5/2 ∧
    ((5/2 : ℚ) ≠ ((2 : ℤ) : ℚ)) ∧
    ([2] : List ℤ).countP (fun s : ℤ =>
      decide ((5/2 : ℚ) ≤ (s : ℚ)) && decide ((s : ℚ) ≤ (5 : ℚ))) = 0 := by
  refine ⟨?_, by norm_num, by norm_num, by decide⟩
  have hloop := zhistLoop_eq_map [2] (0 : ℚ) 5 1 2 0 (by norm_num; rfl)
  have h1 : constats_print_zhistogram [2] 0 5 0 5 = zhistLoop [2] 0 5 1 0 := by
    simp only [constats_print_zhistogram, constats_zscore_value]
    norm_num
  rw [h1, hloop]
  decide

end

theorem digitsLoop_eq (fuel : ℕ) :
    ∀ v : ℕ, v < 10 ^ fuel → digitsLoop v fuel = (Nat.digits 10 v).map DTOC := by
  induction fuel with
  | zero =>
    intro v hv
    interval_cases v
    rw [Nat.digits_zero]
    rfl
  | succ f ih =>
    intro v hv
    match v with
    | 0 =>
      rw [Nat.digits_zero]
      rfl
    | w + 1 =>
      rw [digitsLoop, Nat.digits_def' (by norm_num : (1:ℕ) < 10) (Nat.succ_pos w)]
      rw [List.map_cons]
      congr 1
      apply ih
      have h10 : (10 : ℕ) ^ (f + 1) = 10 * 10 ^ f := by ring
      rw [h10] at hv
      exact Nat.div_lt_of_lt_mul hv

theorem fill_spec :
    ∀ (w : ℕ) (bi : ℕ) (be : List Char), w ≤ be.length → bi + w < U64 →
      fillLoop w bi be = ⟨(List.range' bi w).zip (be.take w), 0, bi + w, be.drop w⟩ := by
  intro w
  induction w with
  | zero =>
    intro bi be _ _
    simp [fillLoop]
  | succ w ih =>
    intro bi be hlen hU
    match be with
    | [] => simp at hlen
    | c :: rest =>
      have hb1 : bi + 1 < U64 := by omega
      have hinc : inc64 bi = bi + 1 := by
        unfold inc64
        exact Nat.mod_eq_of_lt hb1
      have hrec := ih (bi + 1) rest (by simpa using hlen) (by omega)
      rw [fillLoop]
      rw [hinc, hrec]
      simp only [List.range', List.zip_cons_cons, List.take_succ_cons, List.drop_succ_cons]
      have hbw : bi + 1 + w = bi + (w + 1) := by omega
      rw [hbw]

theorem pad_spec :
    ∀ (n : ℕ) (bi : ℕ), bi + n < U64 →
      padLoop n bi = (List.range' bi n).map (fun i => (i, ' ')) := by
  intro n
  induction n with
  | zero => intro bi _; rfl
  | succ n ih =>
    intro bi hU
    have hb1 : bi + 1 < U64 := by omega
    have hinc : inc64 bi = bi + 1 := by
      unfold inc64
      exact Nat.mod_eq_of_lt hb1
    rw [padLoop, hinc, ih (bi + 1) (by omega)]
    simp [List.range']

theorem sub64_eq (a b : ℕ) (hba : b ≤ a) (ha : a < U64) : sub64 a b = a - b := by
  unfold sub64 U64 at *
  omega

theorem digits_drop :
    ∀ (r v : ℕ), (Nat.digits 10 v).drop r = Nat.digits 10 (v / 10 ^ r) := by
  intro r
  induction r with
  | zero => intro v; simp
  | succ r ih =>
    intro v
    match v with
    | 0 => simp
    | w + 1 =>
      rw [Nat.digits_def' (by norm_num : (1:ℕ) < 10) (Nat.succ_pos w)]
      rw [List.drop_succ_cons, ih ((w + 1) / 10)]
      congr 1
      rw [Nat.div_div_eq_div_mul]
      congr 1
      ring

theorem decimalBE_length (v : ℕ) : (decimalBE v).length = (Nat.digits 10 v).length := by
  simp [decimalBE]

theorem decimalBE_take (v k : ℕ) :
    (decimalBE v).take k = decimalBE (v / 10 ^ ((Nat.digits 10 v).length - k)) := by
  unfold decimalBE
  rw [List.take_reverse]
  rw [← List.map_drop, List.length_map, digits_drop]

theorem getD_of_lt {α : Type} (l : List α) (n : ℕ) (d : α) (h : n < l.length) :
    l.getD n d = l[n] := by
  simp [List.getD_eq_getElem?_getD, List.getElem?_eq_getElem h]

theorem applyWrites_append (a b : List (ℕ × Char)) (f : ℕ → Char) :
    applyWrites (a ++ b) f = applyWrites b (applyWrites a f) := by
  simp [applyWrites, List.foldl_append]

theorem applyWrites_not_mem :
    ∀ (ws : List (ℕ × Char)) (f : ℕ → Char) (i : ℕ),
      (∀ p ∈ ws, p.1 ≠ i) → applyWrites ws f i = f i := by
  intro ws
  induction ws with
  | nil => intro f i _; rfl
  | cons p rest ih =>
    intro f i h
    have hstep : applyWrites (p :: rest) f
        = applyWrites rest (Function.update f p.1 p.2) := rfl
    rw [hstep, ih _ i (fun q hq => h q (List.mem_cons_of_mem p hq))]
    exact Function.update_noteq (Ne.symm (h p (List.mem_cons_self p rest))) _ _

theorem applyWrites_zip_range' :
    ∀ (n : ℕ) (cs : List Char) (a : ℕ) (f : ℕ → Char) (i : ℕ),
      n ≤ cs.length → a ≤ i → i < a + n →
      applyWrites ((List.range' a n).zip cs) f i = cs.getD (i - a) '?' := by
  intro n
  induction n with
  | zero => intro cs a f i _ h1 h2; omega
  | succ n ih =>
    intro cs a f i hlen h1 h2
    match cs with
    | [] => simp at hlen
    | c :: rest =>
      simp only [List.range', List.zip_cons_cons]
      have hstep : applyWrites ((a, c) :: (List.range' (a + 1) n).zip rest) f
          = applyWrites ((List.range' (a + 1) n).zip rest) (Function.update f a c) := rfl
      rw [hstep]
      rcases eq_or_lt_of_le h1 with rfl | hgt
      · rw [applyWrites_not_mem]
        · simp [Function.update_same]
        · intro p hp
          rcases p with ⟨j, ch⟩
          have hmem := List.of_mem_zip hp
          have hj := List.mem_range'_1.mp hmem.1
          omega
      · rw [ih rest (a + 1) _ i (by simpa using hlen) (by omega) (by omega)]
        have hidx : i - a = (i - (a + 1)) + 1 := by omega
        rw [hidx, List.getD_cons_succ]

theorem applyWrites_pads :
    ∀ (n : ℕ) (a : ℕ) (f : ℕ → Char) (i : ℕ), a ≤ i → i < a + n →
      applyWrites ((List.range' a n).map (fun j => (j, ' '))) f i = ' ' := by
  intro n
  induction n with
  | zero => intro a f i h1 h2; omega
  | succ n ih =>
    intro a f i h1 h2
    simp only [List.range', List.map_cons]
    have hstep : applyWrites ((a, ' ') :: (List.range' (a + 1) n).map (fun j => (j, ' '))) f
        = applyWrites ((List.range' (a + 1) n).map (fun j => (j, ' ')))
            (Function.update f a ' ') := rfl
    rw [hstep]
    rcases eq_or_lt_of_le h1 with rfl | hgt
    · rw [applyWrites_not_mem]
      · simp [Function.update_same]
      · intro p hp
        rcases List.mem_map.mp hp with ⟨j, hj, rfl⟩
        have := List.mem_range'_1.mp hj
        omega
    · exact ih (a + 1) _ i (by omega) (by omega)

theorem renderBuf_fill_suffix_pads (be : List Char) (w k cd : ℕ) (suf : Char)
    (hw : w ≤ be.length) (hkcd : k + cd = w) (hcd1 : 1 ≤ cd) :
    renderBuf (((List.range' 0 w).zip (be.take w)) ++ [(k, suf)]
        ++ (List.range' (k + 1) (cd - 1)).map (fun j => (j, ' '))) w
      = be.take k ++ [suf] ++ List.replicate (cd - 1) ' ' := by
  have hkw : k ≤ w := by omega
  have hkbe : k ≤ be.length := by omega
  have htklen : (be.take k).length = k := by rw [List.length_take]; omega
  have htwlen : (be.take w).length = w := by rw [List.length_take]; omega
  apply List.ext_getElem
  · simp only [renderBuf, List.length_map, List.length_range, List.length_append,
      List.length_cons, List.length_nil, List.length_replicate, htklen]
    omega
  · intro i hi1 hi2
    have hiw : i < w := by
      simpa only [renderBuf, List.length_map, List.length_range] using hi1
    simp only [renderBuf, List.getElem_map, List.getElem_range]
    rw [applyWrites_append, applyWrites_append]
    rcases lt_trichotomy i k with hik | heq | hik
    · rw [applyWrites_not_mem _ _ i (by
        intro p hp
        rcases List.mem_map.mp hp with ⟨j, hj, rfl⟩
        have := List.mem_range'_1.mp hj
        omega)]
      rw [applyWrites_not_mem _ _ i (by
        intro p hp
        simp only [List.mem_singleton] at hp
        subst hp
        simp only []
        omega)]
      rw [applyWrites_zip_range' w (be.take w) 0 _ i (by omega) (Nat.zero_le i) (by omega)]
      rw [Nat.sub_zero]
      have h1 : i < (be.take w).length := by omega
      rw [getD_of_lt _ _ _ h1]
      rw [List.getElem_append_left (show i < (be.take k ++ [suf]).length by
        simp [htklen]; omega)]
      rw [List.getElem_append_left (show i < (be.take k).length by omega)]
      simp [List.getElem_take]
    · subst heq
      rw [applyWrites_not_mem _ _ i (by
        intro p hp
        rcases List.mem_map.mp hp with ⟨j, hj, rfl⟩
        have := List.mem_range'_1.mp hj
        omega)]
      have hupd : applyWrites [(i, suf)]
          (applyWrites ((List.range' 0 w).zip (be.take w)) (fun _ => '?'))
          = Function.update
              (applyWrites ((List.range' 0 w).zip (be.take w)) (fun _ => '?')) i suf := rfl
      rw [hupd, Function.update_same]
      rw [List.getElem_append_left (show i < (be.take i ++ [suf]).length by
        simp [htklen])]
      rw [List.getElem_append_right (show (be.take i).length ≤ i by rw [htklen])]
      simp [htklen]
    · rw [applyWrites_pads (cd - 1) (k + 1) _ i (by omega) (by omega)]
      rw [List.getElem_append_right (show (be.take k ++ [suf]).length ≤ i by
        simp [htklen]; omega)]
      simp [List.getElem_replicate]

theorem truncCore_writes (v w d cd k r : ℕ)
    (hv : v < 2 ^ 63) (hwU : w < U64)
    (hd : d = (Nat.digits 10 v).length) (hwd : w < d)
    (hcd : cd = 3 - (d - w) % 3) (hcdw : cd ≤ w)
    (hk : k = w - cd) (hr : r = d - k) :
    truncCore v w =
      (0, ((List.range' 0 w).zip ((decimalBE v).take w)) ++ [(k, suffixChar r)]
        ++ (List.range' (k + 1) (cd - 1)).map (fun j => (j, ' '))) := by
  have hv20 : v < 10 ^ 20 := by
    calc v < 2 ^ 63 := hv
    _ < 10 ^ 20 := by norm_num
  have hbe : (digitsLoop v 20).reverse = decimalBE v := by
    rw [digitsLoop_eq 20 v hv20]
    rfl
  have hbelen : (decimalBE v).length = d := by rw [decimalBE_length, hd]
  have hfill := fill_spec w 0 (decimalBE v) (by omega) (by omega)
  have hremlen : ((decimalBE v).drop w).length = d - w := by
    rw [List.length_drop, hbelen]
  have hcds : 3 - (d - w) % 3 = cd := hcd.symm
  have hrs : d - w + cd = r := by omega
  have hks : w - cd = k := by omega
  have hinck : inc64 k = k + 1 := Nat.mod_eq_of_lt (by unfold U64 at *; omega)
  simp only [truncCore]
  rw [hbe, hfill]
  dsimp only
  rw [hremlen, hcds]
  rw [if_pos (by omega)]
  simp only [Nat.zero_add]
  rw [sub64_eq w cd (by omega) (by omega)]
  rw [hks, hrs]
  rw [if_neg (Nat.not_lt_zero _)]
  rw [hinck]
  rw [pad_spec (cd - 1) (k + 1) (by unfold U64 at *; omega)]

/-- C8 (amended): when the compact formatter truncates a nonnegative
value and the width leaves room for the suffix step
(`chars_deleted ≤ width`; the contrary case wraps the unsigned buffer
index and scribbles out of bounds, see the `buf_index` overflow
theorem), the rendered field is exactly the first `k` decimal digits of
the value — the digits of `value / 10^r`, an integer division, i.e. a
truncated prefix, never rounded — followed by the magnitude suffix
chosen by the digit-count thresholds
(`≥18 → E, ≥15 → P, ≥12 → T, ≥9 → G, ≥6 → M, else K`) applied to
`r = d - k`, the number of undisplayed digits rounded up to a multiple
of three, followed by spaces. -/
theorem truncate_prefix_suffix_characterization (v w d cd k r : ℕ)
    (hv : v < 2 ^ 63) (hwU : w < U64)
    (hd : d = (Nat.digits 10 v).length) (hwd : w < d)
    (hcd : cd = 3 - (d - w) % 3) (hcdw : cd ≤ w)
    (hk : k = w - cd) (hr : r = d - k) :
    (constats_truncate (v : ℤ) w).1 = 0 ∧
    renderBuf (constats_truncate (v : ℤ) w).2 w
      = decimalBE (v / 10 ^ r) ++ [suffixChar r] ++ List.replicate (cd - 1) ' ' ∧
    suffixChar r = (if r ≥ 18 then 'E' else if r ≥ 15 then 'P' else if r ≥ 12 then 'T'
      else if r ≥ 9 then 'G' else if r ≥ 6 then 'M' else 'K') := by
  have hcd1 : 1 ≤ cd := by omega
  have hr3 : 3 ≤ r := by omega
  have hstep1 : constats_truncate (v : ℤ) w = truncCore v w := by
    unfold constats_truncate
    rw [if_neg (by omega)]
    rw [if_neg (by exact Int.not_lt.mpr (Int.natCast_nonneg v))]
    rw [Int.toNat_natCast]
  have hcore := truncCore_writes v w d cd k r hv hwU hd hwd hcd hcdw hk hr
  have hbelen : (decimalBE v).length = d := by rw [decimalBE_length, hd]
  refine ⟨by rw [hstep1, hcore], ?_, ?_⟩
  · rw [hstep1, hcore]
    dsimp only
    rw [renderBuf_fill_suffix_pads (decimalBE v) w k cd (suffixChar r)
      (by omega) (by omega) hcd1]
    have htake : (decimalBE v).take k = decimalBE (v / 10 ^ r) := by
      rw [decimalBE_take, ← hd, hr]
    rw [htake]
  · unfold suffixChar
    split_ifs <;> first | rfl | omega

/-- C8: counterexample to the claim as stated.  Formatting `9999` at
width 1 is a truncating render (four digits do not fit in one column),
but the suffix back-out deletes more characters than were written, the
`uint64_t` buffer index wraps, and after the out-of-bounds scribbles the
one visible cell holds a space — neither a digit of `9999` nor one of
the magnitude suffixes, so the display is not a truncated digit prefix
followed by a suffix. -/
theorem truncate_width_too_small_not_prefix_cex :
    (constats_truncate 9999 1).1 = 0 ∧
    renderBuf (constats_truncate 9999 1).2 1 = [' '] ∧
    decimalBE 9999 = ['9', '9', '9', '9'] ∧
    (' ' ∉ decimalBE 9999) ∧
    (' ' ∉ ['K', 'M', 'G', 'T', 'P', 'E']) := by
  refine ⟨by decide, by decide, ?_, ?_, by decide⟩
  · show ((Nat.digits 10 9999).map DTOC).reverse = _
    norm_num
    decide
  · show ' ' ∉ ((Nat.digits 10 9999).map DTOC).reverse
    norm_num
    decide

/-- C8 witness: the characterization applied at value `1999`, width 3:
the field renders as the digit prefix `1` (that is, `1999 / 10^3`,
truncated, not rounded to `2`), the suffix `K`, and one space. -/
theorem truncate_prefix_suffix_characterization_witness :
    (constats_truncate (1999 : ℕ) 3).1 = 0 ∧
    renderBuf (constats_truncate (1999 : ℕ) 3).2 3
      = decimalBE (1999 / 10 ^ 3) ++ [suffixChar 3] ++ List.replicate (2 - 1) ' ' ∧
    suffixChar 3 = (if 3 ≥ 18 then 'E' else if 3 ≥ 15 then 'P' else if 3 ≥ 12 then 'T'
      else if 3 ≥ 9 then 'G' else if 3 ≥ 6 then 'M' else 'K') :=
  truncate_prefix_suffix_characterization 1999 3 4 2 1 3 (by decide)
    (by decide) (by norm_num) (by decide) (by decide) (by decide) (by decide) (by decide)

/-- C9: the code's behavior at the failing input: formatting `0` at
width 3 emits only spaces — the digit loop requires `value > 0`, so no
`'0'` character is ever produced, contradicting the documented
behavior that formatting zero yields `"0"` padded to the width. -/
theorem truncate_zero_renders_blank :
    constats_truncate 0 3 = (0, [(0, ' '), (1, ' '), (2, ' ')]) ∧
    renderBuf (constats_truncate 0 3).2 3 = [' ', ' ', ' '] ∧
    ([' ', ' ', ' '] ≠ ['0', ' ', ' ']) := by
  decide

/-- C10: at value `1000`, width 1, the fill loop writes one character,
the suffix step computes `chars_deleted = 3 > 1`, the unsigned
`buf_index -= chars_deleted` wraps to `2^64 - 2`, the `buf_index < 0`
guard (an unsigned comparison against zero) does not fire, and the call
returns `0` — not the `-1` error — after writing the suffix `'M'` at
index `2^64 - 2`, far beyond the requested width, and a final pad that
wraps around to overwrite index 0. -/
theorem truncate_buf_index_wrap_overflow :
    constats_truncate 1000 1 =
      (0, [(0, '1'), (18446744073709551614, 'M'),
           (18446744073709551615, ' '), (0, ' ')]) ∧
    sub64 1 3 = 18446744073709551614 ∧
    18446744073709551614 > 1 ∧
    (∀ b : ℕ, ¬(b < 0)) :=
  ⟨by decide, by decide, by decide, fun b => Nat.not_lt_zero b⟩
